import Mathlib

/-!
Verification development for the chat-widget core of the ChatBot-n8n repository:
the markdown-aware segment parser, the typing-reveal scheduler and renderer
(`src/components/TypingAnimation.tsx`), the chat session manager
(`src/components/ChatHeader.tsx`, `Chat`), reply-text extraction from the
responder payload, and message-log persistence.

Strings scanned by the parser are modelled as `List Char`; the session layer
uses `String` like the TypeScript `Message` interface.
-/

namespace ChatBot

/-! ## Segment parser (`parseTextElements`, TypingAnimation.tsx lines 21-75)

The source scans the text with the regex `\[([^\]]+)\]\(([^)]+)\)` using
`exec` in a loop.  A match at a position is: a literal `[`, a maximal
non-empty run of characters other than `]`, then `]`, `(`, a maximal
non-empty run of characters other than `)`, then `)`.  Backtracking cannot
shorten the greedy runs (every shorter run still ends at a non-`]`
resp. non-`)` character), so the greedy reading below is exact. -/

inductive ElementType where
  | text
  | link
deriving DecidableEq

/-- Mirror of the `ParsedElement` interface of TypingAnimation.tsx. -/
structure ParsedElement where
  type : ElementType
  content : List Char
  linkText : Option (List Char)
  linkUrl : Option (List Char)
  startIndex : Nat
  endIndex : Nat
  displayStartIndex : Nat
  displayLength : Nat
deriving DecidableEq

/-- Attempt to match the markdown-link regex at the head of `cs`; on success
return the label, the url and the characters after the match.  The wildcard
heads in the two inner matches are necessarily `]` resp. `)` because they are
the characters at which the `takeWhile` runs stopped. -/
def matchLinkAt : List Char → Option (List Char × List Char × List Char)
  | [] => none
  | c :: rest =>
    if c ≠ '[' then none
    else
      let label := rest.takeWhile (fun x => x != ']')
      if label.isEmpty then none
      else
        match rest.dropWhile (fun x => x != ']') with
        | [] => none
        | [_] => none
        | _ :: p :: rest2 =>
          if p ≠ '(' then none
          else
            let url := rest2.takeWhile (fun x => x != ')')
            if url.isEmpty then none
            else
              match rest2.dropWhile (fun x => x != ')') with
              | [] => none
              | _ :: rest3 => some (label, url, rest3)

/-- Leftmost regex match, as `exec` finds it: the characters before the
match, the label, the url, and the characters after the match. -/
def findLinkMatch : List Char → Option (List Char × List Char × List Char × List Char)
  | [] => none
  | c :: cs =>
    match matchLinkAt (c :: cs) with
    | some (label, url, rest) => some ([], label, url, rest)
    | none =>
      match findLinkMatch cs with
      | some (pre, label, url, rest) => some (c :: pre, label, url, rest)
      | none => none

/-- One `while ((match = markdownLinkRegex.exec(text)) !== null)` loop of
`parseTextElements`, over the not-yet-consumed suffix `cs`.  `a` is the
absolute source index of `cs` (the `lastIndex` of the loop) and `d` the
running display index.  `fuel` bounds the number of matches consumed; the
wrapper passes the length of the text, which is always sufficient because
every match consumes at least six characters. -/
def parseTextElementsAux (fuel : Nat) (cs : List Char) (a d : Nat) : List ParsedElement :=
  match findLinkMatch cs, fuel with
    | none, _ =>
      if cs.isEmpty then []
      else [⟨ElementType.text, cs, none, none, a, a + cs.length, d, cs.length⟩]
    | some _, 0 => []
    | some (pre, label, url, rest), fuel' + 1 =>
      (if pre.isEmpty then []
       else [⟨ElementType.text, pre, none, none, a, a + pre.length, d, pre.length⟩]) ++
      ⟨ElementType.link, '[' :: (label ++ ']' :: '(' :: (url ++ [')'])), some label, some url,
        a + pre.length, a + pre.length + (label.length + url.length + 4),
        d + pre.length, label.length⟩ ::
      parseTextElementsAux fuel' rest (a + pre.length + (label.length + url.length + 4))
        (d + pre.length + label.length)

/-- `parseTextElements` of TypingAnimation.tsx. -/
def parseTextElements (text : String) : List ParsedElement :=
  parseTextElementsAux text.data.length text.data 0 0

/-- `parsedElements.reduce((sum, el) => sum + el.displayLength, 0)`
(TypingAnimation.tsx line 87). -/
def totalDisplayLength (els : List ParsedElement) : Nat :=
  (els.map (fun e => e.displayLength)).sum

/-- Concatenation of the `content` fields of a segment sequence. -/
def contentConcat : List ParsedElement → List Char
  | [] => []
  | e :: es => e.content ++ contentConcat es

/-- A `link` element is well formed: non-empty label without `]`, non-empty
url without `)`, and its `content` is exactly the markdown source of the
link.  `text` elements are unconstrained. -/
def linkWellformed (e : ParsedElement) : Bool :=
  match e.type with
  | ElementType.text => true
  | ElementType.link =>
    match e.linkText, e.linkUrl with
    | some label, some url =>
      (!label.isEmpty) && (!url.isEmpty) &&
      label.all (fun c => c != ']') && url.all (fun c => c != ')') &&
      (e.content == '[' :: (label ++ ']' :: '(' :: (url ++ [')'])))
    | _, _ => false

def isTextElem (e : ParsedElement) : Bool :=
  match e.type with
  | ElementType.text => true
  | ElementType.link => false

/-- No two adjacent elements of the sequence are both `text` elements. -/
def noAdjacentText : List ParsedElement → Bool
  | e1 :: e2 :: rest => (!(isTextElem e1 && isTextElem e2)) && noAdjacentText (e2 :: rest)
  | _ => true

/-- Spec-side definition (spec sections 3 and 8): the raw text with every
`[label](url)` occurrence (a match of the link pattern, leftmost first,
non-overlapping) replaced by its label. -/
def stripMarkdownAux (fuel : Nat) (cs : List Char) : List Char :=
  match findLinkMatch cs, fuel with
    | none, _ => cs
    | some _, 0 => cs
    | some (pre, label, _, rest), fuel' + 1 => pre ++ label ++ stripMarkdownAux fuel' rest

/-- Spec-side definition: the visible text of `t`, markdown link syntax
stripped (each `[label](url)` replaced by `label`). -/
def stripMarkdownSpec (text : String) : List Char :=
  stripMarkdownAux text.data.length text.data

/-! ## Segment renderer (`renderElements`, TypingAnimation.tsx lines 109-153)

A pure function of the parsed elements and the current display cursor.  The
loop breaks at the first element whose `displayStartIndex` exceeds the
cursor.  A visible `text` element contributes a span with the prefix of its
content of length `min(displayIndex - displayStartIndex, displayLength)`,
emitted only when that length is positive; a visible `link` element always
contributes the link affordance (its `href`), with only the label text
truncated.  (The source guards the link push with
`displayIndex >= element.displayStartIndex`, which is always true past the
break check.) -/

inductive DisplayUnit where
  | textUnit (visible : List Char)
  | linkUnit (url : List Char) (visibleLabel : List Char)
deriving DecidableEq

def renderElements (els : List ParsedElement) (displayIndex : Nat) : List DisplayUnit :=
  match els with
  | [] => []
  | e :: rest =>
    if displayIndex < e.displayStartIndex then []
    else
      match e.type with
      | ElementType.text =>
        (if 0 < min (displayIndex - e.displayStartIndex) e.displayLength then
          [DisplayUnit.textUnit (e.content.take (min (displayIndex - e.displayStartIndex) e.displayLength))]
         else []) ++ renderElements rest displayIndex
      | ElementType.link =>
        DisplayUnit.linkUnit (e.linkUrl.getD [])
          ((e.linkText.getD []).take (min (displayIndex - e.displayStartIndex) e.displayLength)) ::
        renderElements rest displayIndex

/-- Spec-side data-model invariant (spec section 3): `displayStartIndex` of
each segment is the running sum of the prior segments' display lengths,
starting at `d`. -/
def chainedFrom (d : Nat) : List ParsedElement → Bool
  | [] => true
  | e :: es => (e.displayStartIndex == d) && chainedFrom (d + e.displayLength) es

/-- A display unit extends another: same kind (and same link target), and the
visible text of the first is a prefix of the visible text of the second. -/
def unitExt : DisplayUnit → DisplayUnit → Bool
  | DisplayUnit.textUnit s, DisplayUnit.textUnit t => s.isPrefixOf t
  | DisplayUnit.linkUnit u s, DisplayUnit.linkUnit v t => u == v && s.isPrefixOf t
  | _, _ => false

/-- Pointwise extension of rendered unit lists: every unit of `xs` is
extended by the unit of `ys` at the same position (and `ys` may reveal
further units at the end). -/
def extendsUnits : List DisplayUnit → List DisplayUnit → Bool
  | [], _ => true
  | _ :: _, [] => false
  | x :: xs, y :: ys => unitExt x y && extendsUnits xs ys

/-! ## Reveal scheduler (TypingAnimation.tsx lines 82-100)

State of the `TypingAnimation` component: the `displayIndex` cursor and the
`isComplete` flag.  The effect body either schedules a tick (which increments
the cursor by one and re-runs the effect), or -- when the cursor has reached
the total display length and `isComplete` is still false -- sets the flag and
invokes `onComplete`.  Cooperative single-threaded semantics: each effect
execution sees the committed state of the previous one. -/

structure RevealState where
  displayIndex : Nat
  isComplete : Bool
deriving DecidableEq

/-- One effect execution, with the tick it schedules (if any) already
delivered.  Returns the new state, whether a tick was scheduled, and whether
the completion signal was invoked. -/
def effectStep (total : Nat) (s : RevealState) : RevealState × Bool × Bool :=
  if s.displayIndex < total then
    (⟨s.displayIndex + 1, s.isComplete⟩, true, false)
  else if s.displayIndex == total && !s.isComplete then
    (⟨s.displayIndex, true⟩, false, true)
  else
    (s, false, false)

/-- Run `n` consecutive effect executions (ticks and re-entries); returns the
final state and the number of times the completion signal was invoked. -/
def runSteps (total : Nat) : RevealState → Nat → RevealState × Nat
  | s, 0 => (s, 0)
  | s, n + 1 =>
    let r := effectStep total s
    let c := runSteps total r.1 n
    (c.1, (if r.2.2 then 1 else 0) + c.2)

/-! ## Responder payload and reply-text extraction (ChatHeader.tsx lines 547-548)

The response body is JSON; `data.response || data.message || data.output ||
data.text || (typeof data === 'string' ? data : fallback)` picks the reply
text by JavaScript truthiness with `||` short-circuiting.  `undef` models
`undefined` (an absent property).  Property access on a string, number,
boolean, array or object yields the field or `undefined`, but on `null`
(an attainable response body) or `undefined` it throws a TypeError --
`getFieldE` models this with `Except`, and the throw propagates out of the
`try` into the catch branch of `sendMessage`.  Object keys produced by
`JSON.parse` are unique. -/

inductive Json where
  | undef
  | null
  | bool (b : Bool)
  | num (n : Int)
  | str (s : String)
  | arr (items : List Json)
  | obj (fields : List (String × Json))

/-- JavaScript truthiness of a value. -/
def truthy : Json → Bool
  | Json.undef => false
  | Json.null => false
  | Json.bool b => b
  | Json.num n => n != 0
  | Json.str s => !s.isEmpty
  | Json.arr _ => true
  | Json.obj _ => true

/-- Property access `data.name` on a value that is not `null` or
`undefined`: the field of an object (or `undefined` when absent),
`undefined` on strings, numbers, booleans and arrays. -/
def getField : Json → String → Json
  | Json.obj fields, name =>
    match fields.find? (fun f => f.1 == name) with
    | some f => f.2
    | none => Json.undef
  | _, _ => Json.undef

/-- Property access `data.name` as an expression: on `null` or `undefined`
it throws a TypeError (modelled as `Except.error`), otherwise it yields
`getField`. -/
def getFieldE : Json → String → Except Unit Json
  | Json.null, _ => Except.error ()
  | Json.undef, _ => Except.error ()
  | j, name => Except.ok (getField j name)

/-- JavaScript `a || b`: `b` when `a` is falsy, else `a`. -/
def jsOr (a b : Json) : Json := if truthy a then a else b

/-- The fixed fallback reply text of `sendMessage`. -/
def fallbackText : String := "מצטער, לא הצלחתי לעבד את ההודעה. נסה שוב."

/-- The `botResponseText` expression of `sendMessage` (ChatHeader.tsx line
548): each `data.x` access may throw (on a `null` payload the very first
one does), and `||` short-circuits, so a later access is evaluated only
when every earlier operand was falsy. -/
def extractBotText (data : Json) : Except Unit Json :=
  Except.bind (getFieldE data "response") (fun r1 =>
  if truthy r1 then Except.ok r1 else
  Except.bind (getFieldE data "message") (fun r2 =>
  if truthy r2 then Except.ok r2 else
  Except.bind (getFieldE data "output") (fun r3 =>
  if truthy r3 then Except.ok r3 else
  Except.bind (getFieldE data "text") (fun r4 =>
  Except.ok (jsOr r4 (match data with
    | Json.str s => Json.str s
    | _ => Json.str fallbackText))))))

/-- Spec-side: the field value when the key is present, regardless of its
value. -/
def presentField : Json → String → Option Json
  | Json.obj fields, name => (fields.find? (fun f => f.1 == name)).map (fun f => f.2)
  | _, _ => none

def firstPresentField (data : Json) : List String → Option Json
  | [] => none
  | n :: ns =>
    match presentField data n with
    | some v => some v
    | none => firstPresentField data ns

/-- Spec-side, literal reading of claim C6: the first PRESENT field among
`response, message, output, text`; if none is present and the payload is a
bare string, the payload; otherwise the fixed fallback. -/
def extractBotTextSpecLiteral (data : Json) : Json :=
  match firstPresentField data ["response", "message", "output", "text"] with
  | some v => v
  | none =>
    match data with
    | Json.str s => Json.str s
    | _ => Json.str fallbackText

def firstTruthyField (data : Json) : List String → Option Json
  | [] => none
  | n :: ns =>
    if truthy (getField data n) then some (getField data n)
    else firstTruthyField data ns

/-- The non-throwing core of the amended reading of claim C6: the first
field among `response, message, output, text` whose value is truthy; if
none is truthy and the payload is a bare string, the payload; otherwise
the fixed fallback. -/
def extractBotTextAmended (data : Json) : Json :=
  match firstTruthyField data ["response", "message", "output", "text"] with
  | some v => v
  | none =>
    match data with
    | Json.str s => Json.str s
    | _ => Json.str fallbackText

/-- Spec-side, amended reading of claim C6: on a `null` (or `undefined`)
payload the field access throws a TypeError -- which the catch branch of
`sendMessage` turns into the connection apology -- and otherwise extraction
returns the first truthy field among `response, message, output, text`,
else the bare-string payload itself, else the fixed fallback. -/
def extractBotTextAmendedE (data : Json) : Except Unit Json :=
  match data with
  | Json.null => Except.error ()
  | Json.undef => Except.error ()
  | _ => Except.ok (extractBotTextAmended data)

/-! ## Dates and persistence (ChatHeader.tsx `saveMessages` / `loadMessages`)

`JSON.stringify` serializes a `Date` through `toJSON` as the fixed-width ISO
string `YYYY-MM-DDTHH:mm:ss.sssZ`; `loadMessages` rebuilds the field with
`new Date(msg.timestamp)`.  A `Date` is modelled by its broken-down UTC
components, which is what the ISO string records. -/

structure DateRec where
  year : Nat
  month : Nat
  day : Nat
  hour : Nat
  minute : Nat
  second : Nat
  millis : Nat
deriving DecidableEq

def digitChar (n : Nat) : Char := Char.ofNat (48 + n)

def pad2 (n : Nat) : List Char := [digitChar (n / 10 % 10), digitChar (n % 10)]

def pad3 (n : Nat) : List Char :=
  [digitChar (n / 100 % 10), digitChar (n / 10 % 10), digitChar (n % 10)]

def pad4 (n : Nat) : List Char :=
  [digitChar (n / 1000 % 10), digitChar (n / 100 % 10), digitChar (n / 10 % 10), digitChar (n % 10)]

/-- The characters of `date.toISOString()` / `Date.prototype.toJSON`. -/
def isoChars (d : DateRec) : List Char :=
  pad4 d.year ++ '-' :: (pad2 d.month ++ '-' :: (pad2 d.day ++ 'T' ::
    (pad2 d.hour ++ ':' :: (pad2 d.minute ++ ':' ::
      (pad2 d.second ++ '.' :: (pad3 d.millis ++ ['Z']))))))

def isoOfDate (d : DateRec) : String := String.mk (isoChars d)

def isDigitChar (c : Char) : Bool := 48 ≤ c.toNat && c.toNat ≤ 57

def digitVal (c : Char) : Nat := c.toNat - 48

/-- Read exactly `n` decimal digits, most significant first. -/
def parseFixedNat : Nat → Nat → List Char → Option (Nat × List Char)
  | acc, 0, cs => some (acc, cs)
  | acc, n + 1, c :: cs =>
    if isDigitChar c then parseFixedNat (acc * 10 + digitVal c) n cs else none
  | _, _ + 1, [] => none

def expectChar (c : Char) : List Char → Option (List Char)
  | d :: cs => if d = c then some cs else none
  | [] => none

/-- `new Date(s)` on a fixed-width ISO string: the reconstructed UTC
components, or `none` for a string not of that shape (an invalid date). -/
def parseIsoChars (cs : List Char) : Option DateRec :=
  Option.bind (parseFixedNat 0 4 cs) (fun py =>
  Option.bind (expectChar '-' py.2) (fun cs1 =>
  Option.bind (parseFixedNat 0 2 cs1) (fun pmo =>
  Option.bind (expectChar '-' pmo.2) (fun cs2 =>
  Option.bind (parseFixedNat 0 2 cs2) (fun pda =>
  Option.bind (expectChar 'T' pda.2) (fun cs3 =>
  Option.bind (parseFixedNat 0 2 cs3) (fun ph =>
  Option.bind (expectChar ':' ph.2) (fun cs4 =>
  Option.bind (parseFixedNat 0 2 cs4) (fun pmi =>
  Option.bind (expectChar ':' pmi.2) (fun cs5 =>
  Option.bind (parseFixedNat 0 2 cs5) (fun ps =>
  Option.bind (expectChar '.' ps.2) (fun cs6 =>
  Option.bind (parseFixedNat 0 3 cs6) (fun pms =>
  Option.bind (expectChar 'Z' pms.2) (fun cs7 =>
  match cs7 with
  | [] => some ⟨py.1, pmo.1, pda.1, ph.1, pmi.1, ps.1, pms.1⟩
  | _ => none))))))))))))))

def parseIso (s : String) : Option DateRec := parseIsoChars s.data

/-- The date's components fit the fixed-width ISO serialization (every real
`Date` with a four-digit year does). -/
def fitsIso (d : DateRec) : Bool :=
  decide (d.year < 10000) && decide (d.month < 100) && decide (d.day < 100) &&
  decide (d.hour < 100) && decide (d.minute < 100) && decide (d.second < 100) &&
  decide (d.millis < 1000)

/-! ## Chat session manager (ChatHeader.tsx, `Chat`) -/

/-- Mirror of the `Message` interface: `isTyping` is optional; an absent
field is `none`. -/
structure Message where
  id : String
  text : String
  isUser : Bool
  timestamp : DateRec
  isTyping : Option Bool
deriving DecidableEq

/-- `JSON.stringify` of one message: `toJSON` turns the timestamp into its
ISO string, and an `undefined` (absent) `isTyping` produces no key. -/
def serializeMessage (m : Message) : Json :=
  Json.obj ([("id", Json.str m.id), ("text", Json.str m.text),
             ("isUser", Json.bool m.isUser), ("timestamp", Json.str (isoOfDate m.timestamp))] ++
            (match m.isTyping with
             | some b => [("isTyping", Json.bool b)]
             | none => []))

/-- `saveMessages`: the message array as stored in `localStorage`
(ChatHeader.tsx lines 491-497), modelled at the JSON-tree level. -/
def serializeLog (log : List Message) : Json := Json.arr (log.map serializeMessage)

/-- `loadMessages` field reconstruction for one stored message
(`{ ...msg, timestamp: new Date(msg.timestamp) }`): every field is read
back, the timestamp through ISO parsing. -/
def deserializeMessage (j : Json) : Option Message :=
  match getField j "id", getField j "text", getField j "isUser", getField j "timestamp" with
  | Json.str id, Json.str text, Json.bool isUser, Json.str ts =>
    match parseIso ts with
    | some d =>
      some ⟨id, text, isUser, d,
            match getField j "isTyping" with
            | Json.bool b => some b
            | _ => none⟩
    | none => none
  | _, _, _, _ => none

def deserializeAll : List Json → Option (List Message)
  | [] => some []
  | j :: js =>
    match deserializeMessage j, deserializeAll js with
    | some m, some ms => some (m :: ms)
    | _, _ => none

/-- `loadMessages` applied to a stored array (ChatHeader.tsx lines 462-480). -/
def deserializeLog : Json → Option (List Message)
  | Json.arr items => deserializeAll items
  | _ => none

/-- The whitespace characters removed by JavaScript `String.prototype.trim`
(the ones expressible here: ASCII whitespace, NBSP and the BOM). -/
def jsWhitespace (c : Char) : Bool :=
  c = ' ' || c = '\t' || c = '\n' || c = '\r' ||
  c.toNat = 11 || c.toNat = 12 || c.toNat = 160 || c.toNat = 65279

def jsTrim (s : String) : String :=
  String.mk (((s.data.dropWhile jsWhitespace).reverse.dropWhile jsWhitespace).reverse)

/-- The ambient values `sendMessage` draws from its environment: the two
`ulid()` calls, the two `new Date()` calls and the stored session id. -/
structure SubmitEnv where
  userId : String
  userTime : DateRec
  botId : String
  botTime : DateRec
  sessionId : String

/-- The JSON body of the webhook POST. -/
structure RequestBody where
  chatInput : String
  sessionId : String
  action : String
deriving DecidableEq

/-- The component state of `Chat` that `sendMessage` touches. -/
structure ChatState where
  messages : List Message
  inputValue : String
  isLoading : Bool
  typingMessageId : Option String
deriving DecidableEq

/-- The fixed apology text of the `catch` branch of `sendMessage`. -/
def connectionErrorText : String := "מצטער, יש בעיה בחיבור. נסה שוב מאוחר יותר."

/-- The synchronous prefix of `sendMessage` (ChatHeader.tsx lines 521-541):
the early return on a blank input, then the user-message append, the input
clear, the loading flag, and the fetch body it issues. -/
def sendMessageStart (env : SubmitEnv) (st : ChatState) : ChatState × Option RequestBody :=
  if jsTrim st.inputValue = "" then (st, none)
  else
    (⟨st.messages ++ [⟨env.userId, st.inputValue, true, env.userTime, none⟩],
      "", true, st.typingMessageId⟩,
     some ⟨st.inputValue, env.sessionId, "sendMessage"⟩)

/-- The user-level submit affordance: the send button is
`disabled={!value.trim() || loading}` and the input is `disabled={loading}`
(ChatInput), so while a request is pending neither the click nor the Enter
key can reach `sendMessage`; otherwise `sendMessage` runs. -/
def submit (env : SubmitEnv) (st : ChatState) : ChatState × Option RequestBody :=
  if st.isLoading then (st, none)
  else sendMessageStart env st

/-- Outcome of the awaited fetch: a parsed JSON body, or a failure (non-2xx
status -- which `sendMessage` turns into a throw -- or a transport error). -/
inductive FetchOutcome where
  | success (data : Json)
  | failure

/-- JavaScript string coercion of the extracted reply value, as rendered.
(The TypeScript type of `Message.text` is `string`; a non-string extraction
result is a JS-level quirk outside the claims checked here.) -/
def jsDisplayText : Json → String
  | Json.str s => s
  | Json.num n => toString n
  | Json.bool true => "true"
  | Json.bool false => "false"
  | Json.null => "null"
  | Json.undef => "undefined"
  | Json.arr _ => ""
  | Json.obj _ => "[object Object]"

/-- Resolution of the awaited fetch (ChatHeader.tsx lines 543-574).  On
success: evaluate `botResponseText`; if that throws (a `null` body makes
`data.response` throw a TypeError inside the `try`), control lands in the
same catch branch as a transport error; otherwise append the bot message
(`isTyping: true`) and bind the reveal engine to it (`setTypingMessageId`).
On failure -- a thrown non-2xx status or a transport error -- append the
fixed apology message (`isTyping: true`); the source does NOT call
`setTypingMessageId` in the catch branch.  `finally` clears the loading
flag in every branch. -/
def resolveOutcome (env : SubmitEnv) (outcome : FetchOutcome) (st : ChatState) : ChatState :=
  match outcome with
  | FetchOutcome.success data =>
    match extractBotText data with
    | Except.ok v =>
      ⟨st.messages ++ [⟨env.botId, jsDisplayText v, false, env.botTime, some true⟩],
       st.inputValue, false, some env.botId⟩
    | Except.error _ =>
      ⟨st.messages ++ [⟨env.botId, connectionErrorText, false, env.botTime, some true⟩],
       st.inputValue, false, st.typingMessageId⟩
  | FetchOutcome.failure =>
    ⟨st.messages ++ [⟨env.botId, connectionErrorText, false, env.botTime, some true⟩],
     st.inputValue, false, st.typingMessageId⟩

/-- A full submit round: the synchronous prefix followed, when a request was
issued, by the resolution of its outcome.  (Submission is disabled while the
request is pending, so the state at resolution time is the state the
closure captured.) -/
def sendMessageRound (env : SubmitEnv) (outcome : FetchOutcome) (st : ChatState) : ChatState :=
  match submit env st with
  | (st1, none) => st1
  | (st1, some _) => resolveOutcome env outcome st1

/-- The render condition of `ChatMessage`: a message is rendered through the
`TypingAnimation` reveal engine iff `message.isTyping && typingMessageId ===
message.id`. -/
def rendersAsTyping (typingMessageId : Option String) (m : Message) : Bool :=
  m.isTyping.getD false && typingMessageId == some m.id

/-! ## Concrete values used by witnesses and counterexamples -/

def epoch : DateRec := ⟨1970, 1, 1, 0, 0, 0, 0⟩

def c3Env : SubmitEnv := ⟨"user-1", epoch, "bot-1", epoch, "sess-1"⟩

def c3Start : ChatState := ⟨[], "hello", false, none⟩

def c6Payload : Json := Json.obj [("response", Json.str "")]

/-- A concrete chained segment sequence: text "Hi ", link labelled "go", text "!". -/
def demoEls : List ParsedElement :=
  [⟨ElementType.text, ['H', 'i', ' '], none, none, 0, 3, 0, 3⟩,
   ⟨ElementType.link, ['[', 'g', 'o', ']', '(', 'u', ')'], some ['g', 'o'], some ['u'], 3, 10, 3, 2⟩,
   ⟨ElementType.text, ['!'], none, none, 10, 11, 5, 1⟩]

/-! ## Parser structure lemmas -/

theorem dropWhile_head_not {α} (p : α → Bool) :
    ∀ (l : List α) (c : α) (t : List α), l.dropWhile p = c :: t → p c = false := by
  intro l
  induction l with
  | nil => intro c t h; simp [List.dropWhile] at h
  | cons a as ih =>
    intro c t h
    by_cases hpa : p a = true
    · rw [List.dropWhile_cons, if_pos hpa] at h
      exact ih c t h
    · rw [List.dropWhile_cons, if_neg hpa] at h
      cases h
      simpa using hpa

theorem takeWhile_all {α} (p : α → Bool) (l : List α) : (l.takeWhile p).all p = true := by
  induction l with
  | nil => rfl
  | cons a as ih =>
    rw [List.takeWhile_cons]
    by_cases h : p a = true
    · simp [h, ih]
    · simp [h]

theorem matchLinkAt_eq {cs label url rest : List Char}
    (h : matchLinkAt cs = some (label, url, rest)) :
    cs = '[' :: (label ++ ']' :: '(' :: (url ++ ')' :: rest)) ∧
    label ≠ [] ∧ url ≠ [] ∧
    label.all (fun c => c != ']') = true ∧ url.all (fun c => c != ')') = true := by
  cases cs with
  | nil => simp [matchLinkAt] at h
  | cons c rest0 =>
    simp only [matchLinkAt] at h
    split at h
    · exact absurd h (by simp)
    · rename_i hc
      have hc' : c = '[' := by
        by_contra hne
        exact hc (by simpa using hne)
      split at h
      · exact absurd h (by simp)
      · rename_i hlab
        split at h
        · exact absurd h (by simp)
        · exact absurd h (by simp)
        · rename_i b1 p rest2 hdrop1
          split at h
          · exact absurd h (by simp)
          · rename_i hp
            have hp' : p = '(' := by
              by_contra hne
              exact hp (by simpa using hne)
            split at h
            · exact absurd h (by simp)
            · rename_i hurl
              split at h
              · exact absurd h (by simp)
              · rename_i b2 rest3 hdrop2
                injection h with h1
                injection h1 with hlabel h2
                injection h2 with hurl2 hrest
                subst hlabel
                subst hurl2
                subst hrest
                subst hc'
                subst hp'
                have hb1 : b1 = ']' := by
                  have := dropWhile_head_not _ _ _ _ hdrop1
                  simpa using this
                have hb2 : b2 = ')' := by
                  have := dropWhile_head_not _ _ _ _ hdrop2
                  simpa using this
                subst hb1
                subst hb2
                have e1 : rest0 = rest0.takeWhile (fun x => x != ']') ++
                    (']' :: '(' :: rest2) := by
                  rw [← hdrop1]
                  exact (List.takeWhile_append_dropWhile _ _).symm
                have e2 : rest2 = rest2.takeWhile (fun x => x != ')') ++
                    (')' :: rest3) := by
                  rw [← hdrop2]
                  exact (List.takeWhile_append_dropWhile _ _).symm
                refine ⟨?_, ?_, ?_, takeWhile_all _ _, takeWhile_all _ _⟩
                · conv_rhs => rw [← e2, ← e1]
                · simpa [List.isEmpty_iff] using hlab
                · simpa [List.isEmpty_iff] using hurl

theorem findLinkMatch_eq {cs pre label url rest : List Char}
    (h : findLinkMatch cs = some (pre, label, url, rest)) :
    cs = pre ++ '[' :: (label ++ ']' :: '(' :: (url ++ ')' :: rest)) ∧
    label ≠ [] ∧ url ≠ [] ∧
    label.all (fun c => c != ']') = true ∧ url.all (fun c => c != ')') = true := by
  induction cs generalizing pre label url rest with
  | nil => simp [findLinkMatch] at h
  | cons c cs0 ih =>
    cases hm : matchLinkAt (c :: cs0) with
    | some triple =>
      obtain ⟨l0, u0, r0⟩ := triple
      simp only [findLinkMatch, hm] at h
      injection h with h1
      injection h1 with hpre h2
      injection h2 with hl h3
      injection h3 with hu hr
      subst hpre
      subst hl
      subst hu
      subst hr
      obtain ⟨hd, h2, h3, h4, h5⟩ := matchLinkAt_eq hm
      exact ⟨by simpa using hd, h2, h3, h4, h5⟩
    | none =>
      cases hf : findLinkMatch cs0 with
      | some q =>
        obtain ⟨pre0, l0, u0, r0⟩ := q
        simp only [findLinkMatch, hm, hf] at h
        injection h with h1
        injection h1 with hpre h2
        injection h2 with hl h3
        injection h3 with hu hr
        subst hl
        subst hu
        subst hr
        obtain ⟨hd, h2, h3, h4, h5⟩ := ih hf
        subst hpre
        exact ⟨by rw [List.cons_append, ← hd], h2, h3, h4, h5⟩
      | none =>
        simp only [findLinkMatch, hm, hf] at h
        exact Option.noConfusion h

theorem parseAux_none {cs : List Char} (h : findLinkMatch cs = none) (fuel a d : Nat) :
    parseTextElementsAux fuel cs a d =
      if cs.isEmpty then []
      else [⟨ElementType.text, cs, none, none, a, a + cs.length, d, cs.length⟩] := by
  rw [parseTextElementsAux.eq_def, h]

theorem parseAux_some {cs pre label url rest : List Char}
    (h : findLinkMatch cs = some (pre, label, url, rest)) (fuel a d : Nat) :
    parseTextElementsAux (fuel + 1) cs a d =
      (if pre.isEmpty then []
       else [⟨ElementType.text, pre, none, none, a, a + pre.length, d, pre.length⟩]) ++
      ⟨ElementType.link, '[' :: (label ++ ']' :: '(' :: (url ++ [')'])), some label, some url,
        a + pre.length, a + pre.length + (label.length + url.length + 4),
        d + pre.length, label.length⟩ ::
      parseTextElementsAux fuel rest (a + pre.length + (label.length + url.length + 4))
        (d + pre.length + label.length) := by
  rw [parseTextElementsAux.eq_def, h]

theorem stripAux_none {cs : List Char} (h : findLinkMatch cs = none) (fuel : Nat) :
    stripMarkdownAux fuel cs = cs := by
  rw [stripMarkdownAux.eq_def, h]

theorem stripAux_some {cs pre label url rest : List Char}
    (h : findLinkMatch cs = some (pre, label, url, rest)) (fuel : Nat) :
    stripMarkdownAux (fuel + 1) cs = pre ++ label ++ stripMarkdownAux fuel rest := by
  rw [stripMarkdownAux.eq_def, h]

/-! ## Parser bookkeeping: display-length sum, content preservation,
link well-formedness, segment positivity, adjacency -/

theorem totalDisplayLength_append (A B : List ParsedElement) :
    totalDisplayLength (A ++ B) = totalDisplayLength A + totalDisplayLength B := by
  simp [totalDisplayLength]

theorem contentConcat_append (A B : List ParsedElement) :
    contentConcat (A ++ B) = contentConcat A ++ contentConcat B := by
  induction A with
  | nil => simp [contentConcat]
  | cons e es ih => simp [contentConcat, ih]

theorem length_le_of_decomp {cs pre label url rest : List Char}
    (hd : cs = pre ++ '[' :: (label ++ ']' :: '(' :: (url ++ ')' :: rest)))
    {fuel : Nat} (hcs : cs.length ≤ fuel + 1) : rest.length ≤ fuel := by
  subst hd
  simp [List.length_append] at hcs
  omega

theorem totalDisplayLength_cons (e : ParsedElement) (l : List ParsedElement) :
    totalDisplayLength (e :: l) = e.displayLength + totalDisplayLength l := by
  simp [totalDisplayLength]

theorem totalDisplay_aux (fuel : Nat) :
    ∀ (cs : List Char), cs.length ≤ fuel → ∀ a d,
      totalDisplayLength (parseTextElementsAux fuel cs a d) =
      (stripMarkdownAux fuel cs).length := by
  induction fuel with
  | zero =>
    intro cs hcs a d
    have hnil : cs = [] := List.length_eq_zero.mp (Nat.le_zero.mp hcs)
    subst hnil
    rfl
  | succ fuel ih =>
    intro cs hcs a d
    cases hm : findLinkMatch cs with
    | none =>
      rw [parseAux_none hm, stripAux_none hm]
      by_cases he : cs.isEmpty
      · simp [he, totalDisplayLength, List.isEmpty_iff.mp he]
      · simp [he, totalDisplayLength]
    | some q =>
      obtain ⟨pre, label, url, rest⟩ := q
      obtain ⟨hdec, -, -, -, -⟩ := findLinkMatch_eq hm
      have hrest : rest.length ≤ fuel := length_le_of_decomp hdec hcs
      rw [parseAux_some hm, stripAux_some hm, totalDisplayLength_append,
        totalDisplayLength_cons, ih rest hrest]
      by_cases hpre : pre.isEmpty
      · have hp : pre = [] := List.isEmpty_iff.mp hpre
        subst hp
        simp [totalDisplayLength, List.length_append]
      · simp [hpre, totalDisplayLength, List.length_append]

theorem contentConcat_cons (e : ParsedElement) (l : List ParsedElement) :
    contentConcat (e :: l) = e.content ++ contentConcat l := rfl

theorem contentConcat_aux (fuel : Nat) :
    ∀ (cs : List Char), cs.length ≤ fuel → ∀ a d,
      contentConcat (parseTextElementsAux fuel cs a d) = cs := by
  induction fuel with
  | zero =>
    intro cs hcs a d
    have hnil : cs = [] := List.length_eq_zero.mp (Nat.le_zero.mp hcs)
    subst hnil
    rfl
  | succ fuel ih =>
    intro cs hcs a d
    cases hm : findLinkMatch cs with
    | none =>
      rw [parseAux_none hm]
      by_cases he : cs.isEmpty
      · simp [he, contentConcat, List.isEmpty_iff.mp he]
      · simp [he, contentConcat]
    | some q =>
      obtain ⟨pre, label, url, rest⟩ := q
      obtain ⟨hdec, -, -, -, -⟩ := findLinkMatch_eq hm
      have hrest : rest.length ≤ fuel := length_le_of_decomp hdec hcs
      rw [parseAux_some hm, contentConcat_append, contentConcat_cons, ih rest hrest, hdec]
      by_cases hpre : pre.isEmpty
      · have hp : pre = [] := List.isEmpty_iff.mp hpre
        subst hp
        simp [contentConcat]
      · simp [hpre, contentConcat]

theorem wellformed_aux (fuel : Nat) :
    ∀ (cs : List Char), cs.length ≤ fuel → ∀ a d,
      (parseTextElementsAux fuel cs a d).all linkWellformed = true := by
  induction fuel with
  | zero =>
    intro cs hcs a d
    have hnil : cs = [] := List.length_eq_zero.mp (Nat.le_zero.mp hcs)
    subst hnil
    rfl
  | succ fuel ih =>
    intro cs hcs a d
    cases hm : findLinkMatch cs with
    | none =>
      rw [parseAux_none hm]
      by_cases he : cs.isEmpty
      · simp [he]
      · simp [he, linkWellformed]
    | some q =>
      obtain ⟨pre, label, url, rest⟩ := q
      obtain ⟨hdec, hl, hu, hlc, huc⟩ := findLinkMatch_eq hm
      have hrest : rest.length ≤ fuel := length_le_of_decomp hdec hcs
      rw [parseAux_some hm]
      simp only [List.all_eq_true, bne_iff_ne, ne_eq] at hlc huc
      by_cases hpre : pre.isEmpty
      · have hp : pre = [] := List.isEmpty_iff.mp hpre
        subst hp
        simp [linkWellformed, List.isEmpty_iff, hl, hu, hlc, huc, ih rest hrest]
        exact ⟨hlc, huc⟩
      · simp [hpre, linkWellformed, List.isEmpty_iff, hl, hu, hlc, huc, ih rest hrest]
        exact ⟨hlc, huc⟩

theorem allPos_aux (fuel : Nat) :
    ∀ (cs : List Char), cs.length ≤ fuel → ∀ a d,
      (parseTextElementsAux fuel cs a d).all (fun e => decide (1 ≤ e.displayLength)) = true := by
  induction fuel with
  | zero =>
    intro cs hcs a d
    have hnil : cs = [] := List.length_eq_zero.mp (Nat.le_zero.mp hcs)
    subst hnil
    rfl
  | succ fuel ih =>
    intro cs hcs a d
    cases hm : findLinkMatch cs with
    | none =>
      rw [parseAux_none hm]
      by_cases he : cs.isEmpty
      · simp [he]
      · have : cs ≠ [] := fun h => he (by simp [h])
        simp [he]
        exact Nat.one_le_iff_ne_zero.mpr (fun h0 => this (List.length_eq_zero.mp h0))
    | some q =>
      obtain ⟨pre, label, url, rest⟩ := q
      obtain ⟨hdec, hl, -, -, -⟩ := findLinkMatch_eq hm
      have hrest : rest.length ≤ fuel := length_le_of_decomp hdec hcs
      rw [parseAux_some hm]
      have hlab : 1 ≤ label.length :=
        Nat.one_le_iff_ne_zero.mpr (fun h0 => hl (List.length_eq_zero.mp h0))
      by_cases hpre : pre.isEmpty
      · have hp : pre = [] := List.isEmpty_iff.mp hpre
        subst hp
        simp [ih rest hrest, hlab]
      · have : pre ≠ [] := fun h => hpre (by simp [h])
        have hpl : 1 ≤ pre.length :=
          Nat.one_le_iff_ne_zero.mpr (fun h0 => this (List.length_eq_zero.mp h0))
        simp [hpre, ih rest hrest, hlab, hpl]

theorem noAdjacentText_cons_of_link (e : ParsedElement) (l : List ParsedElement)
    (h : isTextElem e = false) : noAdjacentText (e :: l) = noAdjacentText l := by
  cases l with
  | nil => simp [noAdjacentText]
  | cons f t => simp [noAdjacentText, h]

theorem noAdjacentText_text_cons (x e : ParsedElement) (l : List ParsedElement)
    (h : isTextElem e = false) : noAdjacentText (x :: e :: l) = noAdjacentText (e :: l) := by
  simp [noAdjacentText, h]

theorem noAdjacent_aux (fuel : Nat) :
    ∀ (cs : List Char), cs.length ≤ fuel → ∀ a d,
      noAdjacentText (parseTextElementsAux fuel cs a d) = true := by
  induction fuel with
  | zero =>
    intro cs hcs a d
    have hnil : cs = [] := List.length_eq_zero.mp (Nat.le_zero.mp hcs)
    subst hnil
    rfl
  | succ fuel ih =>
    intro cs hcs a d
    cases hm : findLinkMatch cs with
    | none =>
      rw [parseAux_none hm]
      by_cases he : cs.isEmpty
      · simp [he, noAdjacentText]
      · simp [he, noAdjacentText]
    | some q =>
      obtain ⟨pre, label, url, rest⟩ := q
      obtain ⟨hdec, -, -, -, -⟩ := findLinkMatch_eq hm
      have hrest : rest.length ≤ fuel := length_le_of_decomp hdec hcs
      rw [parseAux_some hm]
      have hlinkNotText : ∀ (s1 s2 s3 s4 : Nat), isTextElem
          ⟨ElementType.link, '[' :: (label ++ ']' :: '(' :: (url ++ [')'])), some label, some url,
            s1, s2, s3, s4⟩ = false := fun _ _ _ _ => rfl
      by_cases hpre : pre.isEmpty
      · have hp : pre = [] := List.isEmpty_iff.mp hpre
        subst hp
        simp only [List.isEmpty_nil, if_true, List.nil_append]
        rw [noAdjacentText_cons_of_link _ _ (hlinkNotText _ _ _ _)]
        exact ih rest hrest _ _
      · rw [if_neg hpre, List.singleton_append]
        rw [noAdjacentText_text_cons _ _ _ (hlinkNotText _ _ _ _),
          noAdjacentText_cons_of_link _ _ (hlinkNotText _ _ _ _)]
        exact ih rest hrest _ _

/-! ## Renderer lemmas: monotonicity and left-to-right stopping -/

theorem nil_isPrefixOf {α} [BEq α] (l : List α) : List.isPrefixOf ([] : List α) l = true := by
  cases l <;> rfl

theorem isPrefixOf_take (l : List Char) :
    ∀ m n, m ≤ n → (l.take m).isPrefixOf (l.take n) = true := by
  induction l with
  | nil =>
    intro m n h
    simp only [List.take_nil]
    rfl
  | cons c cs ih =>
    intro m n h
    cases m with
    | zero => exact nil_isPrefixOf _
    | succ m2 =>
      cases n with
      | zero => omega
      | succ n2 =>
        show ((c == c) && (cs.take m2).isPrefixOf (cs.take n2)) = true
        simp [ih m2 n2 (by omega)]

theorem chainedFrom_cons {d : Nat} {e : ParsedElement} {rest : List ParsedElement}
    (h : chainedFrom d (e :: rest) = true) :
    e.displayStartIndex = d ∧ chainedFrom (d + e.displayLength) rest = true := by
  simpa [chainedFrom, Bool.and_eq_true] using h

theorem render_nil_of_lt {els : List ParsedElement} {d k : Nat}
    (hc : chainedFrom d els = true) (hk : k < d) : renderElements els k = [] := by
  cases els with
  | nil => rfl
  | cons e rest =>
    have h1 := (chainedFrom_cons hc).1
    simp only [renderElements]
    rw [h1, if_pos hk]

theorem extendsUnits_cons {x y : DisplayUnit} {xs ys : List DisplayUnit}
    (h1 : unitExt x y = true) (h2 : extendsUnits xs ys = true) :
    extendsUnits (x :: xs) (y :: ys) = true := by
  simp [extendsUnits, h1, h2]

theorem render_extends (k : Nat) :
    ∀ (els : List ParsedElement) (d : Nat), chainedFrom d els = true →
      extendsUnits (renderElements els k) (renderElements els (k + 1)) = true := by
  intro els
  induction els with
  | nil =>
    intro d h
    rfl
  | cons e rest ih =>
    intro d hc
    obtain ⟨hstart, hrest⟩ := chainedFrom_cons hc
    by_cases hk : k < e.displayStartIndex
    · rw [render_nil_of_lt hc (by omega)]
      rfl
    · have hk1 : ¬ k + 1 < e.displayStartIndex := by omega
      simp only [renderElements, if_neg hk, if_neg hk1]
      cases htype : e.type with
      | link =>
        apply extendsUnits_cons
        · show ((e.linkUrl.getD [] == e.linkUrl.getD []) &&
            ((e.linkText.getD []).take (min (k - e.displayStartIndex) e.displayLength)).isPrefixOf
              ((e.linkText.getD []).take (min (k + 1 - e.displayStartIndex) e.displayLength))) = true
          simp [isPrefixOf_take _ _ _ (by omega :
            min (k - e.displayStartIndex) e.displayLength ≤
            min (k + 1 - e.displayStartIndex) e.displayLength)]
        · exact ih _ hrest
      | text =>
        by_cases hv : 0 < min (k - e.displayStartIndex) e.displayLength
        · have hv1 : 0 < min (k + 1 - e.displayStartIndex) e.displayLength := by omega
          rw [if_pos hv, if_pos hv1, List.singleton_append, List.singleton_append]
          apply extendsUnits_cons
          · show ((e.content.take (min (k - e.displayStartIndex) e.displayLength)).isPrefixOf
              (e.content.take (min (k + 1 - e.displayStartIndex) e.displayLength))) = true
            exact isPrefixOf_take _ _ _ (by omega)
          · exact ih _ hrest
        · rw [if_neg hv, List.nil_append]
          by_cases hv1 : 0 < min (k + 1 - e.displayStartIndex) e.displayLength
          · have : renderElements rest k = [] := render_nil_of_lt hrest (by omega)
            rw [this]
            rfl
          · rw [if_neg hv1, List.nil_append]
            exact ih _ hrest

theorem render_stops (k : Nat) : ∀ (els : List ParsedElement),
    renderElements els k =
      renderElements (els.takeWhile (fun e => decide (e.displayStartIndex ≤ k))) k := by
  intro els
  induction els with
  | nil => rfl
  | cons e rest ih =>
    by_cases hk : k < e.displayStartIndex
    · have hp : (decide (e.displayStartIndex ≤ k)) = false := by
        simp
        omega
      simp [renderElements, hk, List.takeWhile_cons, hp]
    · have hp : (decide (e.displayStartIndex ≤ k)) = true := by
        simp
        omega
      rw [List.takeWhile_cons, hp]
      simp only [if_true]
      simp only [renderElements, if_neg hk]
      cases htype : e.type with
      | text => rw [ih]
      | link => rw [ih]

/-! ## Scheduler lemmas: completion fires exactly once -/

theorem effectStep_complete (total : Nat) {s : RevealState} (h : s.isComplete = true) :
    (effectStep total s).1.isComplete = true ∧ (effectStep total s).2.2 = false := by
  by_cases h1 : s.displayIndex < total
  · simp [effectStep, h1, h]
  · simp [effectStep, h1, h]

theorem runSteps_complete (total : Nat) :
    ∀ (n : Nat) (s : RevealState), s.isComplete = true → (runSteps total s n).2 = 0 := by
  intro n
  induction n with
  | zero =>
    intro s h
    rfl
  | succ n ih =>
    intro s h
    obtain ⟨h1, h2⟩ := effectStep_complete total h
    simp only [runSteps]
    simp [h2, ih _ h1]

theorem effectStep_fired_complete {total : Nat} {s : RevealState}
    (hf : (effectStep total s).2.2 = true) : (effectStep total s).1.isComplete = true := by
  by_cases h1 : s.displayIndex < total
  · simp [effectStep, h1] at hf
  · by_cases h2 : (s.displayIndex == total && !s.isComplete) = true
    · simp [effectStep, h1, h2]
    · simp [effectStep, h1, h2] at hf

theorem runSteps_le_one (total : Nat) :
    ∀ (n : Nat) (s : RevealState), (runSteps total s n).2 ≤ 1 := by
  intro n
  induction n with
  | zero =>
    intro s
    exact Nat.zero_le 1
  | succ n ih =>
    intro s
    simp only [runSteps]
    by_cases hf : (effectStep total s).2.2 = true
    · simp [hf, runSteps_complete total n _ (effectStep_fired_complete hf)]
    · simp only [hf, if_false]
      simpa using ih (effectStep total s).1

theorem runSteps_fire (total : Nat) :
    ∀ (j m : Nat), j ≤ total → (runSteps total ⟨total - j, false⟩ (j + 1 + m)).2 = 1 := by
  intro j
  induction j with
  | zero =>
    intro m hj
    have hstep : effectStep total ⟨total - 0, false⟩ = (⟨total, true⟩, false, true) := by
      simp [effectStep]
    rw [show 0 + 1 + m = m + 1 from by omega]
    simp only [runSteps, hstep]
    simp [runSteps_complete total m ⟨total, true⟩ rfl]
  | succ j ih =>
    intro m hj
    have h1 : total - (j + 1) < total := by omega
    have hstep : effectStep total ⟨total - (j + 1), false⟩ =
        (⟨total - (j + 1) + 1, false⟩, true, false) := by
      simp [effectStep, h1]
    have heq : total - (j + 1) + 1 = total - j := by omega
    rw [show j + 1 + 1 + m = (j + 1 + m) + 1 from by omega]
    simp only [runSteps, hstep, heq]
    simp [ih m (by omega)]

/-! ## Persistence lemmas: ISO date round trip, log round trip -/

theorem digitChar_spec (k : Nat) (h : k < 10) :
    isDigitChar (digitChar k) = true ∧ digitVal (digitChar k) = k := by
  interval_cases k <;> exact ⟨by decide, by decide⟩

theorem parse_pad4 (n : Nat) (h : n < 10000) (rest : List Char) :
    parseFixedNat 0 4 (pad4 n ++ rest) = some (n, rest) := by
  obtain ⟨d1i, d1v⟩ := digitChar_spec (n / 1000 % 10) (by omega)
  obtain ⟨d2i, d2v⟩ := digitChar_spec (n / 100 % 10) (by omega)
  obtain ⟨d3i, d3v⟩ := digitChar_spec (n / 10 % 10) (by omega)
  obtain ⟨d4i, d4v⟩ := digitChar_spec (n % 10) (by omega)
  simp only [pad4, List.cons_append, List.nil_append, parseFixedNat,
    d1i, d2i, d3i, d4i, if_true, d1v, d2v, d3v, d4v]
  simp only [Option.some.injEq, Prod.mk.injEq]
  exact ⟨by omega, rfl⟩

theorem parse_pad2 (n : Nat) (h : n < 100) (rest : List Char) :
    parseFixedNat 0 2 (pad2 n ++ rest) = some (n, rest) := by
  obtain ⟨d1i, d1v⟩ := digitChar_spec (n / 10 % 10) (by omega)
  obtain ⟨d2i, d2v⟩ := digitChar_spec (n % 10) (by omega)
  simp only [pad2, List.cons_append, List.nil_append, parseFixedNat,
    d1i, d2i, if_true, d1v, d2v]
  simp only [Option.some.injEq, Prod.mk.injEq]
  exact ⟨by omega, rfl⟩

theorem parse_pad3 (n : Nat) (h : n < 1000) (rest : List Char) :
    parseFixedNat 0 3 (pad3 n ++ rest) = some (n, rest) := by
  obtain ⟨d1i, d1v⟩ := digitChar_spec (n / 100 % 10) (by omega)
  obtain ⟨d2i, d2v⟩ := digitChar_spec (n / 10 % 10) (by omega)
  obtain ⟨d3i, d3v⟩ := digitChar_spec (n % 10) (by omega)
  simp only [pad3, List.cons_append, List.nil_append, parseFixedNat,
    d1i, d2i, d3i, if_true, d1v, d2v, d3v]
  simp only [Option.some.injEq, Prod.mk.injEq]
  exact ⟨by omega, rfl⟩

theorem expectChar_cons (c : Char) (rest : List Char) :
    expectChar c (c :: rest) = some rest := by
  simp [expectChar]

theorem parseIso_iso (dt : DateRec) (h : fitsIso dt = true) :
    parseIso (isoOfDate dt) = some dt := by
  simp only [fitsIso, Bool.and_eq_true, decide_eq_true_eq] at h
  obtain ⟨⟨⟨⟨⟨⟨hy, hmo⟩, hd⟩, hh⟩, hmi⟩, hs⟩, hms⟩ := h
  show parseIsoChars (isoChars dt) = some dt
  simp only [parseIsoChars, isoChars, parse_pad4 _ hy, parse_pad2 _ hmo, parse_pad2 _ hd,
    parse_pad2 _ hh, parse_pad2 _ hmi, parse_pad2 _ hs, parse_pad3 _ hms, expectChar_cons,
    Option.some_bind]

theorem deserializeMessage_serializeMessage (m : Message) (h : fitsIso m.timestamp = true) :
    deserializeMessage (serializeMessage m) = some m := by
  cases m with
  | mk id text isUser timestamp isTyping =>
    cases isTyping with
    | none =>
      simp only [serializeMessage, List.append_nil]
      simp [deserializeMessage, getField, List.find?, parseIso_iso _ h]
    | some b =>
      simp only [serializeMessage, List.cons_append, List.nil_append]
      simp [deserializeMessage, getField, List.find?, parseIso_iso _ h]

theorem deserializeAll_serialized (log : List Message)
    (h : log.all (fun m => fitsIso m.timestamp) = true) :
    deserializeAll (log.map serializeMessage) = some log := by
  induction log with
  | nil => rfl
  | cons m ms ih =>
    simp only [List.all_cons, Bool.and_eq_true] at h
    simp only [List.map_cons, deserializeAll,
      deserializeMessage_serializeMessage m h.1, ih h.2]

theorem deserializeLog_serializeLog (log : List Message)
    (h : log.all (fun m => fitsIso m.timestamp) = true) :
    deserializeLog (serializeLog log) = some log := by
  simp only [serializeLog, deserializeLog]
  exact deserializeAll_serialized log h

/-! ## Extraction lemmas -/

theorem except_bind_ok {α β : Type} (a : α) (f : α → Except Unit β) :
    Except.bind (Except.ok a) f = f a := rfl

theorem extract_ok_of_getFieldE (data : Json)
    (hok : ∀ n, getFieldE data n = Except.ok (getField data n)) :
    extractBotText data = Except.ok (extractBotTextAmended data) := by
  simp only [extractBotText, hok, except_bind_ok, extractBotTextAmended,
    firstTruthyField, jsOr]
  by_cases h1 : truthy (getField data "response") = true <;>
  by_cases h2 : truthy (getField data "message") = true <;>
  by_cases h3 : truthy (getField data "output") = true <;>
  by_cases h4 : truthy (getField data "text") = true <;>
  simp [h1, h2, h3, h4]

theorem extract_eq_amended_all (data : Json) :
    extractBotText data = extractBotTextAmendedE data := by
  cases data with
  | null => rfl
  | undef => rfl
  | bool b => exact extract_ok_of_getFieldE _ (fun _ => rfl)
  | num n => exact extract_ok_of_getFieldE _ (fun _ => rfl)
  | str t => exact extract_ok_of_getFieldE _ (fun _ => rfl)
  | arr items => exact extract_ok_of_getFieldE _ (fun _ => rfl)
  | obj fields => exact extract_ok_of_getFieldE _ (fun _ => rfl)

/-! ## Claim theorems -/

def demoEnv : SubmitEnv := ⟨"u-1", epoch, "b-1", epoch, "s-1"⟩

/-- Concrete log used to witness the persistence round trip. -/
def demoLog : List Message :=
  [⟨"1", "hello [a](b)", true, ⟨2026, 10, 11, 12, 30, 45, 500⟩, none⟩,
   ⟨"2", "reply", false, ⟨2026, 10, 11, 12, 31, 0, 0⟩, some false⟩]

theorem parse_nil_of_total_zero (t : String)
    (h : totalDisplayLength (parseTextElements t) = 0) : parseTextElements t = [] := by
  cases hp : parseTextElements t with
  | nil => rfl
  | cons e es =>
    have hall := allPos_aux t.data.length t.data (Nat.le_refl _) 0 0
    rw [show parseTextElementsAux t.data.length t.data 0 0 = parseTextElements t from rfl,
      hp] at hall
    rw [hp, totalDisplayLength_cons] at h
    simp only [List.all_cons, Bool.and_eq_true, decide_eq_true_eq] at hall
    omega

/-- C1: for every raw text `t`, the sum of `displayLength` over the segments
returned by the parser equals the length of `t` with every `[label](url)`
occurrence replaced by `label` (link segments contribute the label length,
text segments their source length). -/
theorem claim1_parse_display_sum (t : String) :
    totalDisplayLength (parseTextElements t) = (stripMarkdownSpec t).length :=
  totalDisplay_aux t.data.length t.data (Nat.le_refl _) 0 0

/-- C2: `submit(userText)` is a no-op -- no message appended, no request
issued, state unchanged -- whenever the trimmed input is empty or a request
is currently pending. -/
theorem claim2_submit_noop (env : SubmitEnv) (st : ChatState)
    (h : jsTrim st.inputValue = "" ∨ st.isLoading = true) :
    submit env st = (st, none) := by
  cases h with
  | inr hl => simp [submit, hl]
  | inl ht =>
    by_cases hl : st.isLoading = true
    · simp [submit, hl]
    · simp [submit, hl, sendMessageStart, ht]

/-- Witness for C2 at a whitespace-only input. -/
theorem claim2_submit_noop_witness :
    (jsTrim (ChatState.mk [] "   " false none).inputValue = "" ∨
      (ChatState.mk [] "   " false none).isLoading = true) ∧
    submit demoEnv ⟨[], "   ", false, none⟩ = (⟨[], "   ", false, none⟩, none) :=
  ⟨Or.inl (by decide), claim2_submit_noop demoEnv ⟨[], "   ", false, none⟩ (Or.inl (by decide))⟩

/-- C3 (code-bug evidence): a failing request appends exactly one assistant
message carrying the fixed apology with `isTyping: true`, but
`typingMessageId` is left unset (unlike the success branch), so the message
fails the `ChatMessage` reveal condition and is rendered statically -- it
does not follow the reveal path the claim (and the success branch) require. -/
theorem claim3_failure_message_not_revealed :
    (sendMessageRound c3Env FetchOutcome.failure c3Start).messages =
      [⟨"user-1", "hello", true, epoch, none⟩,
       ⟨"bot-1", connectionErrorText, false, epoch, some true⟩] ∧
    (sendMessageRound c3Env FetchOutcome.failure c3Start).typingMessageId = none ∧
    rendersAsTyping (sendMessageRound c3Env FetchOutcome.failure c3Start).typingMessageId
      ⟨"bot-1", connectionErrorText, false, epoch, some true⟩ = false ∧
    (sendMessageRound c3Env (FetchOutcome.success (Json.str "ok")) c3Start).typingMessageId =
      some "bot-1" ∧
    rendersAsTyping
      (sendMessageRound c3Env (FetchOutcome.success (Json.str "ok")) c3Start).typingMessageId
      ⟨"bot-1", "ok", false, epoch, some true⟩ = true := by
  refine ⟨by decide, by decide, by decide, by decide, by decide⟩

/-- C4: the completion signal is invoked exactly once per bound message --
running enough effect executions from the initial state fires it exactly
once, any run never fires it more than once, and once the done flag is set
no further tick or re-entry fires it again. -/
theorem claim4_completion_exactly_once (total m n : Nat) (s : RevealState)
    (h : s.isComplete = true) :
    (runSteps total ⟨0, false⟩ (total + 1 + m)).2 = 1 ∧
    (runSteps total s n).2 = 0 ∧
    (runSteps total ⟨0, false⟩ n).2 ≤ 1 :=
  ⟨by simpa using runSteps_fire total total m (Nat.le_refl _),
   runSteps_complete total n s h, runSteps_le_one total n _⟩

/-- Witness for C4 at total display length 2. -/
theorem claim4_completion_exactly_once_witness :
    (RevealState.mk 2 true).isComplete = true ∧
    ((runSteps 2 ⟨0, false⟩ (2 + 1 + 0)).2 = 1 ∧
      (runSteps 2 ⟨2, true⟩ 5).2 = 0 ∧
      (runSteps 2 ⟨0, false⟩ 5).2 ≤ 1) :=
  ⟨rfl, claim4_completion_exactly_once 2 0 5 ⟨2, true⟩ rfl⟩

/-- C5: for every segment sequence satisfying the data-model running-sum
invariant, the reveal is monotonic (each rendered unit at cursor `k` is
prefix-extended at cursor `k+1`) and strictly left-to-right (rendering stops
at the first segment whose `displayStartIndex` exceeds the cursor). -/
theorem claim5_render_monotone_left_to_right (els : List ParsedElement) (d k : Nat)
    (h : chainedFrom d els = true) :
    extendsUnits (renderElements els k) (renderElements els (k + 1)) = true ∧
    renderElements els k =
      renderElements (els.takeWhile (fun e => decide (e.displayStartIndex ≤ k))) k :=
  ⟨render_extends k els d h, render_stops k els⟩

/-- Witness for C5 on a concrete chained segment sequence. -/
theorem claim5_render_monotone_left_to_right_witness :
    chainedFrom 0 demoEls = true ∧
    (extendsUnits (renderElements demoEls 3) (renderElements demoEls (3 + 1)) = true ∧
      renderElements demoEls 3 =
        renderElements (demoEls.takeWhile (fun e => decide (e.displayStartIndex ≤ 3))) 3) :=
  ⟨by decide, claim5_render_monotone_left_to_right demoEls 0 3 (by decide)⟩

/-- C6 counterexample: on the payload `{"response": ""}` the field
`response` is present, so the claim requires the empty string to be
returned, but the code's truthiness chain skips it and yields the fixed
fallback. -/
theorem claim6_counterexample :
    extractBotTextSpecLiteral c6Payload = Json.str "" ∧
    extractBotText c6Payload = Except.ok (Json.str fallbackText) ∧
    Json.str "" ≠ Json.str fallbackText := by
  refine ⟨rfl, rfl, ?_⟩
  intro hcontra
  injection hcontra with h2
  exact absurd h2 (by decide)

/-- C6 (amended): extraction returns the first field among
`response, message, output, text` whose value is truthy (JavaScript
truthiness: present and non-empty for strings, non-zero for numbers); if
none is truthy and the payload is a bare string, the payload itself;
if the payload is `null` the very first access throws a TypeError, which
lands in the catch branch of `sendMessage` and yields the connection
apology message instead (second conjunct); otherwise the fixed fallback
string. -/
theorem claim6_extract_first_truthy (data : Json) :
    extractBotText data = extractBotTextAmendedE data ∧
    (sendMessageRound demoEnv (FetchOutcome.success Json.null)
        ⟨[], "hi", false, none⟩).messages =
      [⟨"u-1", "hi", true, epoch, none⟩,
       ⟨"b-1", connectionErrorText, false, epoch, some true⟩] :=
  ⟨extract_eq_amended_all data, by decide⟩

/-- C7: persisting a message log and reloading it yields an equal log, every
field preserved and each timestamp reconstructed from its ISO serialization
(for timestamps that fit the fixed-width ISO format, as every real date with
a four-digit year does). -/
theorem claim7_log_roundtrip (log : List Message)
    (h : log.all (fun m => fitsIso m.timestamp) = true) :
    deserializeLog (serializeLog log) = some log :=
  deserializeLog_serializeLog log h

/-- Witness for C7 on a concrete two-message log. -/
theorem claim7_log_roundtrip_witness :
    demoLog.all (fun m => fitsIso m.timestamp) = true ∧
    deserializeLog (serializeLog demoLog) = some demoLog :=
  ⟨by decide, claim7_log_roundtrip demoLog (by decide)⟩

/-- C8: malformed or unmatched link syntax degrades to plain text -- the
parser preserves every character of the input inside the segments (nothing
is dropped), and every `link` segment it emits is a well-formed
`[label](url)` occurrence with a non-empty label, so a malformed span can
only live inside a `text` segment. -/
theorem claim8_malformed_degrades_to_text (t : String) :
    contentConcat (parseTextElements t) = t.data ∧
    (parseTextElements t).all linkWellformed = true :=
  ⟨contentConcat_aux t.data.length t.data (Nat.le_refl _) 0 0,
   wellformed_aux t.data.length t.data (Nat.le_refl _) 0 0⟩

/-- C9: every segment produced by the parser has `displayLength` at least 1
(no zero-length segments) and the sequence never contains two adjacent
`text` segments. -/
theorem claim9_segments_positive_no_adjacent_text (t : String) :
    (parseTextElements t).all (fun e => decide (1 ≤ e.displayLength)) = true ∧
    noAdjacentText (parseTextElements t) = true :=
  ⟨allPos_aux t.data.length t.data (Nat.le_refl _) 0 0,
   noAdjacent_aux t.data.length t.data (Nat.le_refl _) 0 0⟩

/-- C10: a message text parsing to total display length 0 yields an empty
segment sequence, the renderer emits no display units at every cursor, and
the very first effect run at cursor 0 invokes completion without scheduling
a tick. -/
theorem claim10_empty_completes_immediately (t : String)
    (h : totalDisplayLength (parseTextElements t) = 0) :
    parseTextElements t = [] ∧
    (∀ k, renderElements (parseTextElements t) k = []) ∧
    effectStep (totalDisplayLength (parseTextElements t)) ⟨0, false⟩ =
      (⟨0, true⟩, false, true) := by
  have hnil := parse_nil_of_total_zero t h
  refine ⟨hnil, fun k => by rw [hnil]; rfl, ?_⟩
  rw [h]
  decide

/-- Witness for C10 at the empty string. -/
theorem claim10_empty_completes_immediately_witness :
    totalDisplayLength (parseTextElements "") = 0 ∧
    (parseTextElements "" = [] ∧
      (∀ k, renderElements (parseTextElements "") k = []) ∧
      effectStep (totalDisplayLength (parseTextElements "")) ⟨0, false⟩ =
        (⟨0, true⟩, false, true)) :=
  ⟨by decide, claim10_empty_completes_immediately "" (by decide)⟩

end ChatBot
